import Mathlib

/-!
A verification development for the nix-kunai lockfile reconciler.

The Rust sources are embedded shallowly:

* `src/updater.rs` — the update-scheme resolvers (`fetch_latest_git_tag`,
  `fetch_git_branch_commit`, `VersionUpdateScheme::get_new_version_for`).
  Subprocess invocations (`git ls-remote`) are modelled by a `GitEnv`
  record of oracles that return the observable outcome of each call
  (spawn failure, exit status, decoded standard output).  Rust panics
  (out-of-range string slicing, `expect`) are modelled by returning
  `none` in an `Option`-wrapped result.
* `src/source.rs` — the `Source` record, `Source::full_url`, and the
  JSON (de)serialization of `SourceMap` as derived by serde.
* `src/subcommands/update.rs` — the reconciliation loop `update`.
  The three I/O collaborators it calls (`get_new_version_for`,
  `Url::parse` inside `full_url`, `get_artifact_hash_from_url`) are
  abstracted into an `UpdateEnv` record, and the loop additionally
  records a trace of which collaborator calls it performed.

Strings are treated as Lean `String`s (sequences of Unicode scalar
values); where the Rust code indexes by UTF-8 *bytes* (`str::len`,
slicing) the model computes the byte length of the character list
explicitly with `utf8Len`.
-/

/-- UTF-8 byte length of a character list; models Rust `str::len`. -/
def utf8Len : List Char → Nat
  | [] => 0
  | c :: cs => Char.utf8Size c + utf8Len cs

/-- Strict byte-lexicographic order on character lists.  For valid
Unicode text, UTF-8 byte order coincides with scalar-value order, so
this models the `Ord` instance Rust's `BTreeMap<String, _>` sorts by. -/
def strLtB : List Char → List Char → Bool
  | [], [] => false
  | [], _ :: _ => true
  | _ :: _, [] => false
  | a :: as, b :: bs => if a < b then true else if a = b then strLtB as bs else false

/-- Strict order on strings used for `BTreeMap` keys. -/
def strLt (a b : String) : Bool := strLtB a.toList b.toList

/-- Models Rust `str::split(sep)` on the character level: the list of
segments between occurrences of `sep` (never empty; splitting the empty
string yields `[[]]`, as in Rust). -/
def splitOnChar (sep : Char) : List Char → List (List Char)
  | [] => [[]]
  | c :: cs =>
    let r := splitOnChar sep cs
    if c = sep then [] :: r
    else
      match r with
      | [] => [[c]]
      | h :: t => (c :: h) :: t

/-- Models `line.split('/').last().unwrap_or("")` from
`fetch_latest_git_tag` in `src/updater.rs`. -/
def lastSlashSegment (line : String) : String :=
  String.mk ((splitOnChar '/' line.toList).getLastD [])

/-- Models Rust `str::starts_with` (for valid UTF-8, byte-prefix
coincides with character-prefix). -/
def strStartsWith (pre s : String) : Bool := List.isPrefixOf pre.toList s.toList

/-- Models Rust `str::chars().nth(n)`. -/
def strCharNth (s : String) (n : Nat) : Option Char := s.toList.get? n

/-- Drops the first `n` characters; models Rust `str::strip_prefix`
after a successful `starts_with` test (a matching byte prefix always
ends on a character boundary). -/
def strDropChars (s : String) (n : Nat) : String := String.mk (s.toList.drop n)

/-- Fuel-indexed worker for `rustReplace`; the fuel is an upper bound on
the number of characters still to be consumed, so `length s` is always
enough.  Structural in the fuel so that the kernel can evaluate it. -/
def rustReplaceFuel (pat repl : List Char) : Nat → List Char → List Char
  | _, [] => []
  | 0, s => s
  | fuel + 1, c :: cs =>
    if 0 < pat.length && List.isPrefixOf pat (c :: cs) then
      repl ++ rustReplaceFuel pat repl fuel ((c :: cs).drop pat.length)
    else
      c :: rustReplaceFuel pat repl fuel cs

/-- Models Rust `str::replace(pat, repl)` for non-empty patterns:
replace every non-overlapping occurrence of `pat`, scanning left to
right.  (The code only ever replaces the literal `"{version}"`.) -/
def rustReplace (s pat repl : String) : String :=
  String.mk (rustReplaceFuel pat.toList repl.toList s.toList.length s.toList)

/-- Models the Rust byte slice `&s[0..n]`: `some` prefix when `n` is in
range and falls on a character boundary, `none` when the slice would
panic. -/
def rustByteSliceTo : List Char → Nat → Option (List Char)
  | _, 0 => some []
  | [], _ + 1 => none
  | c :: cs, n + 1 =>
    if Char.utf8Size c ≤ n + 1 then
      (rustByteSliceTo cs (n + 1 - Char.utf8Size c)).map (fun l => c :: l)
    else
      none

/-- Models `VersionUpdateScheme` from `src/updater.rs`.  `short_hash_length`
is Rust's `NonZeroUsize`, modelled as a positive natural number.
Repository URLs are modelled as strings. -/
inductive VersionUpdateScheme where
  | GitTags (repo_url : Option String) ( tag_prefix : Option String)
  | GitBranch (repo_url : Option String) (branch : String) (short_hash_length : {n : Nat // 0 < n})
  | Static
deriving DecidableEq

/-- Models `VersionUpdateScheme::is_static` from `src/updater.rs`. -/
def VersionUpdateScheme.is_static : VersionUpdateScheme → Bool
  | .Static => true
  | _ => false

/-- Models `Source` from `src/source.rs`.  The `pinned` field is read by
`src/subcommands/update.rs` but its declaration is missing from the
`source.rs` in this tree; it is Modelled from the spec: "`pinned`:
boolean; when true, the source is exempt from automatic resolution
unless an explicit override is requested". -/
structure Source where
  version : String
  latest_checked_version : String
  artifact_url_template : String
  git_url_inner : Option String
  hash : String
  tag_prefix_filter : Option String
  unpack : Bool
  pinned : Bool
  update_scheme : VersionUpdateScheme
deriving DecidableEq

/-- Models `VersionDiff` from `src/subcommands/update.rs`. -/
structure VersionDiff where
  old : String
  new : String
deriving DecidableEq

/-- Models `InferGitUrlError` from `src/updater.rs` (payloads elided). -/
inductive InferGitUrlError where
  | CouldNotParseUrlTemplate
  | ArtifactUrlNoBase
  | InsufficientPathSegments
deriving DecidableEq

/-- Models `FetchLatestGitTagError` from `src/updater.rs` (payloads elided). -/
inductive FetchLatestGitTagError where
  | CommandFailed
  | CommandOutputInvalidUtf8
  | NoTagsFitFilter
deriving DecidableEq

/-- Models `FetchGitBranchCommitError` from `src/updater.rs` (payloads elided). -/
inductive FetchGitBranchCommitError where
  | CommandFailed
  | CommandOutputInvalidUtf8
  | BranchNotFound
deriving DecidableEq

/-- Models `GetLatestVersionError` from `src/updater.rs`. -/
inductive GetLatestVersionError where
  | GetGitUrl (e : InferGitUrlError)
  | FetchGitTags (error : FetchLatestGitTagError) ( tag_prefix : Option String)
  | FetchBranchCommit (error : FetchGitBranchCommitError) (branch : String)
deriving DecidableEq

/-- Models `GetArtifactHashError` from `src/source.rs` (payloads elided except
the prefetch URL). -/
inductive GetArtifactHashError where
  | CommandFailed
  | PrefetchFailed (url : String)
  | MalformedOrIncorrectJson
  | SerdeIoError
deriving DecidableEq

/-- Models `BuildFullUrlError` from `src/source.rs` (the parse error payload is
elided; the expanded URL string is kept). -/
structure BuildFullUrlError where
  full_url : String
deriving DecidableEq

/-- The observable outcome of one `Command::output()` call: the exit
status and the standard output decoded as UTF-8 (already split into
lines, `none` when the bytes are not valid UTF-8). -/
structure CmdOutput where
  success : Bool
  stdout_lines : Option (List String)

/-- Oracles for the external collaborators of `src/updater.rs`:
`git ls-remote --tags` / `--branches` (an `Except.error` models a
spawn-level `io::Error`), and `infer_git_url`, whose body is a sequence
of `url` crate calls (parsing, path segments) and is therefore treated
as a black-box collaborator returning either the inferred URL or one of
its three declared errors. -/
structure GitEnv where
  ls_remote_tags : String → Except Unit CmdOutput
  ls_remote_branches : String → Except Unit CmdOutput
  infer_url : String → Except InferGitUrlError String

/-- The tag filter from `fetch_latest_git_tag` in `src/updater.rs`:
`line.starts_with(filter) && line.chars().nth(filter.len()).is_some_and(|c| c.is_ascii_digit())`.
Note that `filter.len()` is the UTF-8 *byte* length of the filter while
`chars().nth` counts characters. -/
def tagFits (f line : String) : Bool :=
  strStartsWith f line && (strCharNth line (utf8Len f.toList)).any Char.isDigit

/-- The pure core of `fetch_latest_git_tag` from `src/updater.rs`,
applied to the decoded output lines: take the last `/`-segment of each
line, keep those that fit the filter, take the last one and strip the
filter from it. -/
def fetch_latest_git_tag_lines (lines : List String) (filter : Option String) :
    Except FetchLatestGitTagError String :=
  let f := filter.getD ""
  match ((lines.map lastSlashSegment).filter (tagFits f)).getLast? with
  | none => .error .NoTagsFitFilter
  | some tag => .ok (if strStartsWith f tag then strDropChars tag f.length else tag)

/-- Models `fetch_latest_git_tag` from `src/updater.rs`.  The exit status of
the `git` subprocess is never inspected, exactly as in the source. -/
def fetch_latest_git_tag (env : GitEnv) (url : String) (filter : Option String) :
    Except FetchLatestGitTagError String :=
  match env.ls_remote_tags url with
  | .error _ => .error .CommandFailed
  | .ok out =>
    match out.stdout_lines with
    | none => .error .CommandOutputInvalidUtf8
    | some lines => fetch_latest_git_tag_lines lines filter

/-- Models `line.split_whitespace().next()`: the first maximal run of
non-whitespace characters, `none` when the line is all whitespace. -/
def firstWhitespaceToken (line : String) : Option String :=
  let rest := line.toList.dropWhile Char.isWhitespace
  if rest.isEmpty then none
  else some (String.mk (rest.takeWhile (fun c => !c.isWhitespace)))

/-- Models `fetch_git_branch_commit` from `src/updater.rs`.  The outer
`Option` models the `expect` panic on a line with no whitespace-separated
token; the exit status of `git` is never inspected, as in the source. -/
def fetch_git_branch_commit (env : GitEnv) (url branch : String) :
    Option (Except FetchGitBranchCommitError String) :=
  match env.ls_remote_branches url with
  | .error _ => some (.error .CommandFailed)
  | .ok out =>
    match out.stdout_lines with
    | none => some (.error .CommandOutputInvalidUtf8)
    | some lines =>
      match lines.find?
          (fun line => ((splitOnChar '/' line.toList).getLast?).any
            (fun seg => String.mk seg == branch)) with
      | none => some (.error .BranchNotFound)
      | some branch_info =>
        match firstWhitespaceToken branch_info with
        | none => none
        | some tok => some (.ok tok)

/-- Models `VersionUpdateScheme::get_new_version_for` from `src/updater.rs`.
The outer `Option` models panics: `none` when the Rust code would
panic, in particular on the unchecked slice
`hash[0..short_hash_length.get()]`. -/
def get_new_version_for (env : GitEnv) (scheme : VersionUpdateScheme) (source : Source) :
    Option (Except GetLatestVersionError String) :=
  match scheme with
  | .GitTags repo_url tp =>
    match (match repo_url with
           | some u => Except.ok u
           | none => env.infer_url source.artifact_url_template) with
    | .error e => some (.error (.GetGitUrl e))
    | .ok git_url =>
      match fetch_latest_git_tag env git_url tp with
      | .error e => some (.error (.FetchGitTags e tp))
      | .ok v => some (.ok v)
  | .GitBranch repo_url branch short_hash_length =>
    match (match repo_url with
           | some u => Except.ok u
           | none => env.infer_url source.artifact_url_template) with
    | .error e => some (.error (.GetGitUrl e))
    | .ok git_url =>
      match fetch_git_branch_commit env git_url branch with
      | none => none
      | some (.error e) => some (.error (.FetchBranchCommit e branch))
      | some (.ok h) =>
        match rustByteSliceTo h.toList short_hash_length.val with
        | none => none
        | some short_hash => some (.ok (branch ++ "-" ++ String.mk short_hash))
  | .Static => some (.ok source.version)

/-- A JSON value, as far as the lockfile document needs (the lockfile
never contains arrays). -/
inductive Json where
  | null
  | bool (b : Bool)
  | str (s : String)
  | num (n : Nat)
  | obj (fields : List (String × Json))

/-- serde serializes `Option<T>` as `null` / the value itself. -/
def encodeOptStr : Option String → Json
  | none => .null
  | some s => .str s

/-- The serde serialization of `VersionUpdateScheme`
(`#[serde(rename_all = "kebab-case", tag = "type")]`). -/
def encodeScheme : VersionUpdateScheme → Json
  | .GitTags repo_url tp =>
    .obj [("type", .str "git-tags"), ("repo_url", encodeOptStr repo_url),
          ("tag_prefix", encodeOptStr tp)]
  | .GitBranch repo_url branch short_hash_length =>
    .obj [("type", .str "git-branch"), ("repo_url", encodeOptStr repo_url),
          ("branch", .str branch), ("short_hash_length", .num short_hash_length.val)]
  | .Static => .obj [("type", .str "static")]

/-- The serde serialization of `Source` (fields in declaration order;
`git_url_inner` is renamed to `git_url` by `#[serde(rename)]`). -/
def encodeSource (s : Source) : Json :=
  .obj [("version", .str s.version),
        ("latest_checked_version", .str s.latest_checked_version),
        ("artifact_url_template", .str s.artifact_url_template),
        ("git_url", encodeOptStr s.git_url_inner),
        ("hash", .str s.hash),
        ("tag_prefix_filter", encodeOptStr s.tag_prefix_filter),
        ("unpack", .bool s.unpack),
        ("pinned", .bool s.pinned),
        ("update_scheme", encodeScheme s.update_scheme)]

/-- The serde serialization of `SourceMap`
(`#[serde(flatten)]` over the name-to-source map). -/
def encodeSourceMap (m : List (String × Source)) : Json :=
  .obj (m.map (fun p => (p.1, encodeSource p.2)))

/-- Field lookup in a JSON object, as serde's generated map visitor
performs it. -/
def jlookup (fields : List (String × Json)) (k : String) : Option Json :=
  (fields.find? (fun p => p.1 == k)).map (fun p => p.2)

/-- Deserialize a mandatory string field. -/
def decodeStr : Option Json → Except Unit String
  | some (.str s) => .ok s
  | _ => .error ()

/-- Deserialize an `Option<String>` field (serde: absent or `null` maps
to `None`). -/
def decodeOptStr : Option Json → Except Unit (Option String)
  | some .null => .ok none
  | some (.str s) => .ok (some s)
  | none => .ok none
  | _ => .error ()

/-- Deserialize a mandatory boolean field. -/
def decodeBool : Option Json → Except Unit Bool
  | some (.bool b) => .ok b
  | _ => .error ()

/-- Deserialize a `NonZeroUsize` field: a number that must be positive. -/
def decodePosNum : Option Json → Except Unit {n : Nat // 0 < n}
  | some (.num n) => if h : 0 < n then .ok ⟨n, h⟩ else .error ()
  | _ => .error ()

/-- Deserialization of the internally-tagged `VersionUpdateScheme`. -/
def decodeScheme : Option Json → Except Unit VersionUpdateScheme
  | some (.obj fields) =>
    match jlookup fields "type" with
    | some (.str "git-tags") => do
      let repo_url ← decodeOptStr (jlookup fields "repo_url")
      let tp ← decodeOptStr (jlookup fields "tag_prefix")
      pure (.GitTags repo_url tp)
    | some (.str "git-branch") => do
      let repo_url ← decodeOptStr (jlookup fields "repo_url")
      let branch ← decodeStr (jlookup fields "branch")
      let short_hash_length ← decodePosNum (jlookup fields "short_hash_length")
      pure (.GitBranch repo_url branch short_hash_length)
    | some (.str "static") => pure .Static
    | _ => .error ()
  | _ => .error ()

/-- Deserialization of one `Source` record. -/
def decodeSource (j : Json) : Except Unit Source :=
  match j with
  | .obj fields => do
    let version ← decodeStr (jlookup fields "version")
    let latest_checked_version ← decodeStr (jlookup fields "latest_checked_version")
    let artifact_url_template ← decodeStr (jlookup fields "artifact_url_template")
    let git_url_inner ← decodeOptStr (jlookup fields "git_url")
    let hash ← decodeStr (jlookup fields "hash")
    let tag_prefix_filter ← decodeOptStr (jlookup fields "tag_prefix_filter")
    let unpack ← decodeBool (jlookup fields "unpack")
    let pinned ← decodeBool (jlookup fields "pinned")
    let update_scheme ← decodeScheme (jlookup fields "update_scheme")
    pure { version := version
           latest_checked_version := latest_checked_version
           artifact_url_template := artifact_url_template
           git_url_inner := git_url_inner
           hash := hash
           tag_prefix_filter := tag_prefix_filter
           unpack := unpack
           pinned := pinned
           update_scheme := update_scheme }
  | _ => .error ()

/-- Ordered insertion into the name-to-source map, as
`BTreeMap::insert` behaves under the byte-lexicographic string order
(replacing the value on an equal key). -/
def btreeInsert (k : String) (v : Source) : List (String × Source) → List (String × Source)
  | [] => [(k, v)]
  | (k', v') :: rest =>
    if strLt k k' then (k, v) :: (k', v') :: rest
    else if k = k' then (k, v) :: rest
    else (k', v') :: btreeInsert k v rest

/-- Worker for `decodeSourceMap`: deserialize each entry in document
order and insert it into the accumulating `BTreeMap`. -/
def decodeSourceMapGo : List (String × Json) → List (String × Source) →
    Except Unit (List (String × Source))
  | [], acc => .ok acc
  | (k, v) :: rest, acc =>
    match decodeSource v with
    | .error e => .error e
    | .ok s => decodeSourceMapGo rest (btreeInsert k s acc)

/-- Models `SourceMap::from_reader_json`, after JSON parsing: deserialize the
flattened name-to-source object into a `BTreeMap`. -/
def decodeSourceMap (j : Json) : Except Unit (List (String × Source)) :=
  match j with
  | .obj entries => decodeSourceMapGo entries []
  | _ => .error ()

/-- The key `k` is strictly above every key of the map. -/
def allKeysBelow (m : List (String × Source)) (k : String) : Bool :=
  m.all (fun a => strLt a.1 k)

/-- The key `k` is strictly below every key of the map. -/
def keyBelowAll (k : String) (m : List (String × Source)) : Bool :=
  m.all (fun b => strLt k b.1)

/-- The `BTreeMap` representation invariant: keys strictly increasing. -/
def sortedKeys : List (String × Source) → Bool
  | [] => true
  | a :: rest => keyBelowAll a.1 rest && sortedKeys rest

/-- Oracles for the three I/O-performing operations invoked by the
reconciliation loop in `src/subcommands/update.rs`:
`VersionUpdateScheme::get_new_version_for` (which spawns `git`),
`Url::parse` inside `Source::full_url` (the `url` crate, treated as a
validity predicate on the expanded URL string), and
`get_artifact_hash_from_url` (which spawns `nix store prefetch-file`). -/
structure UpdateEnv where
  get_new_version : Source → Except GetLatestVersionError String
  url_parse_ok : String → Bool
  get_artifact_hash : String → Bool → Except GetArtifactHashError String

/-- Models `Source::full_url` from `src/source.rs`: substitute the version
into the template, then parse the result as a URL. -/
def Source.full_url (env : UpdateEnv) (s : Source) (version : String) :
    Except BuildFullUrlError String :=
  let u := rustReplace s.artifact_url_template "{version}" version
  if env.url_parse_ok u then .ok u else .error ⟨u⟩

/-- Models `UpdateArgs` from `src/subcommands/update.rs` (the `--pin`/`--unpin`
group flattened into two booleans). -/
structure UpdateArgs where
  source_names : List String
  refetch : Bool
  force : Bool
  show_updated : Bool
  json : Bool
  pin : Bool
  unpin : Bool

/-- One collaborator call performed by the loop, tagged with the source
it was performed for (the trace lets frame claims state that no
resolution / URL build / hash fetch happened for a source). -/
inductive ExtCall where
  | resolve (name : String)
  | buildUrl (name : String)
  | prefetch (name : String) (url : String)
deriving DecidableEq

/-- The source a call was performed for. -/
def ExtCall.srcName : ExtCall → String
  | .resolve n => n
  | .buildUrl n => n
  | .prefetch n _ => n

/-- The effect of one iteration of the reconciliation loop on one
source: the (possibly modified) source, the counter increments, the
reported diff, whether the `changed` flag was set, the collaborator
calls performed, and whether the iteration aborts the whole run. -/
structure StepRes where
  source : Source
  up_to_date : Nat
  skipped : Nat
  errors : Nat
  diff : Option VersionDiff
  set_changed : Bool
  calls : List ExtCall
  fatal : Bool
deriving DecidableEq

/-- The no-effect step result. -/
def StepRes.base (s : Source) : StepRes :=
  ⟨s, 0, 0, 0, none, false, [], false⟩

/-- The loop's source filter:
`source_filter.is_empty() || source_filter.contains(name)`. -/
def selectedBy (args : UpdateArgs) (name : String) : Bool :=
  args.source_names.isEmpty || args.source_names.contains name

/-- The guard before the loop: `--pin`/`--unpin` without source
arguments and without `--force` fails immediately. -/
def precheckFails (args : UpdateArgs) : Bool :=
  (args.pin || args.unpin) && args.source_names.isEmpty && !args.force

/-- The resolver errors the loop treats as per-source recoverable: the
`GetGitUrl` arm and the `FetchGitTags { error: NoTagsFitFilter, .. }`
arm of the `match` in `src/subcommands/update.rs`. -/
def resolverRecoverable : GetLatestVersionError → Bool
  | .GetGitUrl _ => true
  | .FetchGitTags .NoTagsFitFilter _ => true
  | _ => false

/-- The body of the per-source loop of `update` in
`src/subcommands/update.rs`, lines 125-282. -/
def updateStep (env : UpdateEnv) (args : UpdateArgs) (name : String) (s : Source) : StepRes :=
  if args.pin = true then
    if s.pinned = true then { StepRes.base s with up_to_date := 1 }
    else { StepRes.base { s with pinned := true } with
           diff := some ⟨s.version, s.version⟩, set_changed := true }
  else if args.unpin = true then
    if s.pinned = false then { StepRes.base s with up_to_date := 1 }
    else { StepRes.base { s with pinned := false } with
           diff := some ⟨s.version, s.version⟩, set_changed := true }
  else if s.pinned = true ∧ args.force = false then
    { StepRes.base s with skipped := 1 }
  else
    match env.get_new_version s with
    | .error (.GetGitUrl _) =>
      { StepRes.base s with skipped := 1, errors := 1, calls := [.resolve name] }
    | .error (.FetchGitTags .NoTagsFitFilter _) =>
      { StepRes.base s with skipped := 1, errors := 1, calls := [.resolve name] }
    | .error _ =>
      { StepRes.base s with calls := [.resolve name], fatal := true }
    | .ok latest_tag =>
      if s.update_scheme.is_static = false ∧ args.refetch = false ∧
          s.latest_checked_version = latest_tag then
        { StepRes.base s with up_to_date := 1, calls := [.resolve name] }
      else
        match Source.full_url env s latest_tag with
        | .error _ =>
          { StepRes.base s with
            skipped := 1
            errors := 1
            calls := [.resolve name, .buildUrl name] }
        | .ok url =>
          match env.get_artifact_hash url s.unpack with
          | .ok h =>
            if s.version ≠ latest_tag then
              { StepRes.base { s with
                  hash := h
                  version := latest_tag
                  latest_checked_version := latest_tag } with
                diff := some ⟨s.version, latest_tag⟩
                set_changed := true
                calls := [.resolve name, .buildUrl name, .prefetch name url] }
            else if s.hash ≠ h then
              { StepRes.base { s with
                  hash := h
                  latest_checked_version := latest_tag } with
                diff := some ⟨s.version, latest_tag⟩
                set_changed := true
                calls := [.resolve name, .buildUrl name, .prefetch name url] }
            else
              { StepRes.base { s with latest_checked_version := latest_tag } with
                up_to_date := 1
                set_changed := true
                calls := [.resolve name, .buildUrl name, .prefetch name url] }
          | .error (.PrefetchFailed _) =>
            { StepRes.base { s with latest_checked_version := latest_tag } with
              skipped := 1
              errors := 1
              set_changed := true
              calls := [.resolve name, .buildUrl name, .prefetch name url] }
          | .error _ =>
            { StepRes.base s with
              skipped := 1
              errors := 1
              calls := [.resolve name, .buildUrl name, .prefetch name url] }

/-- The loop accumulator: the already-processed entries, the report of
updated sources, the `changed` flag, the three counters, and the trace
of collaborator calls. -/
structure RunAcc where
  processed : List (String × Source)
  updated : List (String × VersionDiff)
  changed : Bool
  up_to_date : Nat
  skipped : Nat
  errors : Nat
  calls : List ExtCall
deriving DecidableEq

/-- Fold one step result into the accumulator. -/
def pushStep (acc : RunAcc) (name : String) (r : StepRes) : RunAcc :=
  { processed := acc.processed ++ [(name, r.source)]
    updated := acc.updated ++ (match r.diff with | some d => [(name, d)] | none => [])
    changed := acc.changed || r.set_changed
    up_to_date := acc.up_to_date + r.up_to_date
    skipped := acc.skipped + r.skipped
    errors := acc.errors + r.errors
    calls := acc.calls ++ r.calls }

/-- The per-source loop of `update`: process each selected entry in
order; a fatal step returns immediately (second component `true`),
leaving the remaining entries untouched in memory. -/
def runLoop (env : UpdateEnv) (args : UpdateArgs) :
    List (String × Source) → RunAcc → RunAcc × Bool
  | [], acc => (acc, false)
  | (name, s) :: rest, acc =>
    if selectedBy args name = true then
      let r := updateStep env args name s
      if r.fatal = true then
        ({ pushStep acc name r with
           processed := (pushStep acc name r).processed ++ rest }, true)
      else
        runLoop env args rest (pushStep acc name r)
    else
      runLoop env args rest { acc with processed := acc.processed ++ [(name, s)] }

/-- The outcome of a whole `update` invocation: the exit status, the
document written to the lockfile (`none` when nothing is written), the
final in-memory map, the report, the counters and the call trace. -/
structure RunResult where
  failure : Bool
  written : Option (List (String × Source))
  final_sources : List (String × Source)
  updated : List (String × VersionDiff)
  changed : Bool
  up_to_date : Nat
  skipped : Nat
  errors : Nat
  calls : List ExtCall
deriving DecidableEq

/-- Models `update` from `src/subcommands/update.rs`, lines 86-363, over an
already-loaded source map (loading and the final file write are the
persistence collaborators; the write itself is modelled as succeeding,
its content being the point of interest). -/
def update (env : UpdateEnv) (args : UpdateArgs) (sources : List (String × Source)) :
    RunResult :=
  if precheckFails args = true then
    { failure := true
      written := none
      final_sources := sources
      updated := []
      changed := false
      up_to_date := 0
      skipped := 0
      errors := 0
      calls := [] }
  else
    let res := runLoop env args sources ⟨[], [], false, 0, 0, 0, []⟩
    if res.2 = true then
      { failure := true
        written := none
        final_sources := res.1.processed
        updated := res.1.updated
        changed := res.1.changed
        up_to_date := res.1.up_to_date
        skipped := res.1.skipped
        errors := res.1.errors
        calls := res.1.calls }
    else
      { failure := false
        written := if res.1.changed = true then some res.1.processed else none
        final_sources := res.1.processed
        updated := res.1.updated
        changed := res.1.changed
        up_to_date := res.1.up_to_date
        skipped := res.1.skipped
        errors := res.1.errors
        calls := res.1.calls }

deriving instance DecidableEq for Except

/-- Stated from the words of the tag-filter claim, for comparison with
`fetch_latest_git_tag_lines`: select exactly the tags that start with
the prefix and whose character immediately after the prefix is an ASCII
digit, return the last such tag with the prefix stripped, fail with
`NoTagsFitFilter` when no tag matches. -/
def claimTagResolve (tags : List String) (pre : String) :
    Except FetchLatestGitTagError String :=
  match (tags.filter
      (fun t => strStartsWith pre t && (strCharNth t pre.length).any Char.isDigit)).getLast? with
  | none => .error .NoTagsFitFilter
  | some t => .ok (strDropChars t pre.length)

/-- Flag-free arguments: plain `update` with no name filter. -/
def plainArgs : UpdateArgs :=
  { source_names := []
    refetch := false
    force := false
    show_updated := false
    json := false
    pin := false
    unpin := false }

/-- A static source whose candidate, hash and observed version are all
already in place. -/
def staticSrc : Source :=
  { version := "1.0"
    latest_checked_version := "1.0"
    artifact_url_template := "https://x/{version}.tar.gz"
    git_url_inner := none
    hash := "abc"
    tag_prefix_filter := none
    unpack := false
    pinned := false
    update_scheme := .Static }

/-- A git-tags source one version behind. -/
def gitTagsSrc : Source :=
  { version := "1.0"
    latest_checked_version := "0.9"
    artifact_url_template := "https://x/{version}.tar.gz"
    git_url_inner := none
    hash := "h1"
    tag_prefix_filter := none
    unpack := false
    pinned := false
    update_scheme := .GitTags none none }

/-- Environment whose resolver fails with a non-recoverable error
(a branch-commit fetch failure). -/
def c1Env : UpdateEnv :=
  ⟨fun _ => .error (.FetchBranchCommit .BranchNotFound "main"), fun _ => true,
   fun _ _ => .ok "h"⟩

/-- Environment that resolves every source to `"2.0"` and fails every
prefetch with the recoverable `PrefetchFailed`. -/
def c2Env : UpdateEnv :=
  ⟨fun _ => .ok "2.0", fun _ => true, fun u _ => .error (.PrefetchFailed u)⟩

/-- Environment that resolves every source to `"2.0"`, rejects exactly
the URL string `"badurl"`, and hashes everything else to `"h2"`. -/
def c3Env : UpdateEnv :=
  ⟨fun _ => .ok "2.0", fun u => !(u == "badurl"), fun _ _ => .ok "h2"⟩

/-- A source whose artifact URL template expands to an unparsable URL. -/
def c3Bad : Source :=
  { gitTagsSrc with artifact_url_template := "badurl" }

/-- Models `gitTagsSrc` after a successful update to version `"2.0"`. -/
def c3GoodAfter : Source :=
  { gitTagsSrc with version := "2.0", hash := "h2", latest_checked_version := "2.0" }

/-- Environment for a static source whose prefetch returns the hash
already stored (`"abc"`, the hash of `staticSrc`). -/
def c5Env : UpdateEnv :=
  ⟨fun s => .ok s.version, fun _ => true, fun _ _ => .ok "abc"⟩

/-- Environment that resolves every source to `"1.0"`. -/
def c7Env : UpdateEnv :=
  ⟨fun _ => .ok "1.0", fun _ => true, fun _ _ => .ok "h"⟩

/-- Git oracle: one branch line for `main`, everything else failing. -/
def c9Env : GitEnv :=
  ⟨fun _ => .error (), fun _ => .ok ⟨true, some ["abcdef0123\trefs/heads/main"]⟩,
   fun _ => .error .ArtifactUrlNoBase⟩

/-- Git oracle: every `git ls-remote` exits with a failure status and
empty standard output. -/
def c10Env : GitEnv :=
  ⟨fun _ => .ok ⟨false, some []⟩, fun _ => .ok ⟨false, some []⟩,
   fun _ => .error .ArtifactUrlNoBase⟩

/-- A git-branch source with every optional field populated. -/
def c8Branch : Source :=
  { version := "main-abcdef"
    latest_checked_version := "main-abcdef"
    artifact_url_template := "https://g/o/r/archive/{version}.tar.gz"
    git_url_inner := some "https://g/o/r"
    hash := "hb"
    tag_prefix_filter := some "v"
    unpack := true
    pinned := true
    update_scheme := .GitBranch (some "https://g/o/r") "main" ⟨6, by decide⟩ }

/-- One source per update-scheme variant, with strictly sorted keys. -/
def c8Map : List (String × Source) :=
  [("a", gitTagsSrc), ("b", c8Branch), ("c", staticSrc)]

theorem strLtB_irrefl : ∀ l, strLtB l l = false
  | [] => rfl
  | a :: as => by simp [strLtB, strLtB_irrefl as]

theorem strLtB_asymm : ∀ l₁ l₂, strLtB l₁ l₂ = true → strLtB l₂ l₁ = false
  | [], [] => by simp [strLtB]
  | [], _ :: _ => fun _ => rfl
  | _ :: _, [] => by simp [strLtB]
  | a :: as, b :: bs => by
    intro h
    simp only [strLtB] at h ⊢
    by_cases hab : a < b
    · rw [if_neg (lt_asymm hab), if_neg (ne_of_gt hab)]
    · by_cases heq : a = b
      · subst heq
        rw [if_neg (lt_irrefl a), if_pos rfl] at h ⊢
        exact strLtB_asymm as bs h
      · rw [if_neg hab, if_neg heq] at h
        exact absurd h (by simp)

theorem strLt_asymm (a b : String) (h : strLt a b = true) : strLt b a = false :=
  strLtB_asymm _ _ h

theorem strLt_ne (a b : String) (h : strLt a b = true) : a ≠ b := by
  intro heq
  subst heq
  simp [strLt, strLtB_irrefl] at h

theorem btreeInsert_append (k : String) (v : Source) :
    ∀ m, allKeysBelow m k = true → btreeInsert k v m = m ++ [(k, v)]
  | [], _ => rfl
  | (k', v') :: rest, h => by
    simp only [allKeysBelow, List.all_cons, Bool.and_eq_true] at h
    obtain ⟨hk, hrest⟩ := h
    simp only [btreeInsert]
    rw [if_neg (by simp [strLt_asymm k' k hk]), if_neg (fun he => strLt_ne k' k hk he.symm)]
    rw [btreeInsert_append k v rest hrest]
    simp

theorem decodePosNum_encode (n : {k : Nat // 0 < k}) :
    decodePosNum (some (.num n.val)) = .ok n := by
  obtain ⟨nv, hn⟩ := n
  simp [decodePosNum, hn]

theorem decodeScheme_encode (sch : VersionUpdateScheme) :
    decodeScheme (some (encodeScheme sch)) = .ok sch := by
  cases sch with
  | GitTags ru tp => cases ru <;> cases tp <;> rfl
  | GitBranch ru br n =>
    cases ru <;>
      (simp [encodeScheme, decodeScheme, jlookup, List.find?, decodeOptStr, decodeStr,
        encodeOptStr, decodePosNum_encode]
       try rfl)
  | Static => rfl

theorem decodeSource_encode (s : Source) : decodeSource (encodeSource s) = .ok s := by
  obtain ⟨v, lcv, aut, gu, h, tpf, up, pin, sch⟩ := s
  cases gu <;> cases tpf <;>
    (simp [encodeSource, decodeSource, jlookup, List.find?, decodeStr, decodeOptStr,
      encodeOptStr, decodeBool, decodeScheme_encode]
     try rfl)

theorem decodeGo_encode : ∀ (m acc : List (String × Source)), sortedKeys m = true →
    (∀ p ∈ m, allKeysBelow acc p.1 = true) →
    decodeSourceMapGo (m.map (fun p => (p.1, encodeSource p.2))) acc = .ok (acc ++ m)
  | [], acc, _, _ => by simp [decodeSourceMapGo]
  | (k, s) :: rest, acc, hs, hb => by
    simp only [sortedKeys, Bool.and_eq_true] at hs
    obtain ⟨hbelow, hsrest⟩ := hs
    simp only [List.map_cons, decodeSourceMapGo, decodeSource_encode]
    rw [btreeInsert_append k s acc (hb (k, s) (by simp))]
    rw [decodeGo_encode rest (acc ++ [(k, s)]) hsrest ?_]
    · simp
    · intro p hp
      simp only [allKeysBelow, List.all_append, Bool.and_eq_true]
      refine ⟨hb p (by simp [hp]), ?_⟩
      simp only [List.all_cons, List.all_nil, Bool.and_true]
      simp only [keyBelowAll, List.all_eq_true] at hbelow
      exact hbelow p hp

theorem rustByteSliceTo_some_le :
    ∀ (cs : List Char) (n : Nat) (l : List Char), rustByteSliceTo cs n = some l → n ≤ utf8Len cs
  | _, 0, _, _ => Nat.zero_le _
  | [], _ + 1, _, h => by simp [rustByteSliceTo] at h
  | c :: cs, n + 1, l, h => by
    simp only [rustByteSliceTo] at h
    by_cases hle : Char.utf8Size c ≤ n + 1
    · rw [if_pos hle] at h
      cases hmap : rustByteSliceTo cs (n + 1 - Char.utf8Size c) with
      | none => rw [hmap] at h; simp at h
      | some l' =>
        have hrec := rustByteSliceTo_some_le cs (n + 1 - Char.utf8Size c) l' hmap
        simp only [utf8Len]
        omega
    · rw [if_neg hle] at h
      simp at h

theorem rustByteSliceTo_none_of_gt :
    ∀ (cs : List Char) (n : Nat), utf8Len cs < n → rustByteSliceTo cs n = none
  | _, 0, h => absurd h (Nat.not_lt_zero _)
  | [], _ + 1, _ => rfl
  | c :: cs, n + 1, h => by
    simp only [rustByteSliceTo]
    by_cases hle : Char.utf8Size c ≤ n + 1
    · rw [if_pos hle,
        rustByteSliceTo_none_of_gt cs (n + 1 - Char.utf8Size c)
          (by simp only [utf8Len] at h; omega)]
      rfl
    · rw [if_neg hle]

theorem utf8Len_of_ascii :
    ∀ l : List Char, (∀ c ∈ l, Char.utf8Size c = 1) → utf8Len l = l.length
  | [], _ => rfl
  | c :: cs, h => by
    have hc := h c (by simp)
    have ih := utf8Len_of_ascii cs (fun d hd => h d (by simp [hd]))
    simp only [utf8Len, List.length_cons, hc, ih]
    omega

theorem splitOnChar_no_sep :
    ∀ (sep : Char) (l : List Char), sep ∉ l → splitOnChar sep l = [l]
  | _, [], _ => rfl
  | sep, c :: cs, h => by
    have hc : ¬ c = sep := by
      intro he
      exact h (by simp [← he])
    have hrest : sep ∉ cs := fun hm => h (List.mem_cons_of_mem _ hm)
    simp [splitOnChar, hc, splitOnChar_no_sep sep cs hrest]

theorem lastSlashSegment_id (t : String) (h : '/' ∉ t.toList) : lastSlashSegment t = t := by
  unfold lastSlashSegment
  rw [splitOnChar_no_sep _ _ h]
  rfl

theorem updateStep_calls_srcName (env : UpdateEnv) (args : UpdateArgs) (name : String)
    (s : Source) : ∀ c ∈ (updateStep env args name s).calls, c.srcName = name := by
  intro c hc
  unfold updateStep at hc
  repeat' split at hc
  all_goals simp_all [StepRes.base, ExtCall.srcName]
  all_goals (rcases hc with rfl | rfl | rfl) <;> rfl

theorem nodupKeys_eq : ∀ (l : List (String × Source)) (n : String) (s1 s2 : Source),
    (l.map Prod.fst).Nodup → (n, s1) ∈ l → (n, s2) ∈ l → s1 = s2
  | [], _, _, _, _, h1, _ => absurd h1 (List.not_mem_nil _)
  | a :: t, n, s1, s2, hnd, h1, h2 => by
    simp only [List.map_cons, List.nodup_cons] at hnd
    obtain ⟨hna, hndt⟩ := hnd
    rcases List.mem_cons.mp h1 with h1 | h1 <;> rcases List.mem_cons.mp h2 with h2 | h2
    · rw [← h1] at h2
      exact (congrArg Prod.snd h2).symm
    · exfalso
      apply hna
      have hm : (n, s2).1 ∈ t.map Prod.fst := List.mem_map_of_mem Prod.fst h2
      rw [← h1]
      exact hm
    · exfalso
      apply hna
      have hm : (n, s1).1 ∈ t.map Prod.fst := List.mem_map_of_mem Prod.fst h1
      rw [← h2]
      exact hm
    · exact nodupKeys_eq t n s1 s2 hndt h1 h2

theorem runLoop_processed_mono (env : UpdateEnv) (args : UpdateArgs) :
    ∀ (l : List (String × Source)) (acc : RunAcc) (x : String × Source),
    x ∈ acc.processed → x ∈ (runLoop env args l acc).1.processed
  | [], _, _, hx => hx
  | (name, s) :: rest, acc, x, hx => by
    simp only [runLoop]
    by_cases hsel : selectedBy args name = true
    · rw [if_pos hsel]
      by_cases hf : (updateStep env args name s).fatal = true
      · rw [if_pos hf]
        exact List.mem_append_left _ (List.mem_append_left _ hx)
      · rw [if_neg hf]
        exact runLoop_processed_mono env args rest _ x (List.mem_append_left _ hx)
    · rw [if_neg hsel]
      exact runLoop_processed_mono env args rest _ x (List.mem_append_left _ hx)

theorem runLoop_fatal_eq (env : UpdateEnv) (args : UpdateArgs) :
    ∀ (l : List (String × Source)) (acc : RunAcc),
    (runLoop env args l acc).2 =
      l.any (fun p => selectedBy args p.1 && (updateStep env args p.1 p.2).fatal)
  | [], _ => rfl
  | (name, s) :: rest, acc => by
    simp only [runLoop, List.any_cons]
    by_cases hsel : selectedBy args name = true
    · by_cases hf : (updateStep env args name s).fatal = true
      · rw [if_pos hsel, if_pos hf]
        simp [hsel, hf]
      · have hf' : (updateStep env args name s).fatal = false := by
          revert hf
          cases (updateStep env args name s).fatal <;> simp
        rw [if_pos hsel, if_neg hf, runLoop_fatal_eq env args rest _]
        simp [hsel, hf']
    · have hsel' : selectedBy args name = false := by
        revert hsel
        cases selectedBy args name <;> simp
      rw [if_neg hsel, runLoop_fatal_eq env args rest _]
      simp [hsel']

theorem runLoop_changed_eq (env : UpdateEnv) (args : UpdateArgs) :
    ∀ (l : List (String × Source)) (acc : RunAcc),
    l.any (fun p => selectedBy args p.1 && (updateStep env args p.1 p.2).fatal) = false →
    (runLoop env args l acc).1.changed =
      (acc.changed ||
        l.any (fun p => selectedBy args p.1 && (updateStep env args p.1 p.2).set_changed))
  | [], acc, _ => by simp [runLoop]
  | (name, s) :: rest, acc, hnf => by
    rw [List.any_cons] at hnf
    have h1 : (selectedBy args name && (updateStep env args name s).fatal) = false := by
      cases hx : (selectedBy args name && (updateStep env args name s).fatal) with
      | false => rfl
      | true => rw [hx] at hnf; simp at hnf
    have h2 : rest.any (fun p => selectedBy args p.1 && (updateStep env args p.1 p.2).fatal)
        = false := by
      cases hx : rest.any (fun p => selectedBy args p.1 && (updateStep env args p.1 p.2).fatal) with
      | false => rfl
      | true => rw [hx] at hnf; simp at hnf
    simp only [runLoop, List.any_cons]
    by_cases hsel : selectedBy args name = true
    · have hfat : (updateStep env args name s).fatal = false := by
        rw [hsel] at h1
        simpa using h1
      rw [if_pos hsel, if_neg (by simp [hfat]), runLoop_changed_eq env args rest _ h2]
      simp [pushStep, hsel, Bool.or_assoc]
    · have hsel' : selectedBy args name = false := by
        revert hsel
        cases selectedBy args name <;> simp
      rw [if_neg hsel, runLoop_changed_eq env args rest _ h2]
      simp [hsel']

theorem runLoop_calls_sub (env : UpdateEnv) (args : UpdateArgs) :
    ∀ (l : List (String × Source)) (acc : RunAcc) (c : ExtCall),
    c ∈ (runLoop env args l acc).1.calls →
    c ∈ acc.calls ∨
      ∃ p, p ∈ l ∧ selectedBy args p.1 = true ∧ c ∈ (updateStep env args p.1 p.2).calls
  | [], _, _, hc => Or.inl hc
  | (name, s) :: rest, acc, c, hc => by
    simp only [runLoop] at hc
    by_cases hsel : selectedBy args name = true
    · rw [if_pos hsel] at hc
      by_cases hf : (updateStep env args name s).fatal = true
      · rw [if_pos hf] at hc
        have hc' : c ∈ acc.calls ++ (updateStep env args name s).calls := hc
        rcases List.mem_append.mp hc' with h | h
        · exact Or.inl h
        · exact Or.inr ⟨(name, s), by simp, hsel, h⟩
      · rw [if_neg hf] at hc
        rcases runLoop_calls_sub env args rest _ c hc with h | ⟨p, hp, hps, hpc⟩
        · have h' : c ∈ acc.calls ++ (updateStep env args name s).calls := h
          rcases List.mem_append.mp h' with h'' | h''
          · exact Or.inl h''
          · exact Or.inr ⟨(name, s), by simp, hsel, h''⟩
        · exact Or.inr ⟨p, List.mem_cons_of_mem _ hp, hps, hpc⟩
    · rw [if_neg hsel] at hc
      rcases runLoop_calls_sub env args rest _ c hc with h | ⟨p, hp, hps, hpc⟩
      · exact Or.inl h
      · exact Or.inr ⟨p, List.mem_cons_of_mem _ hp, hps, hpc⟩

theorem runLoop_mem_preserved (env : UpdateEnv) (args : UpdateArgs) :
    ∀ (l : List (String × Source)) (acc : RunAcc) (name : String) (s : Source),
    (name, s) ∈ l → (updateStep env args name s).source = s →
    (name, s) ∈ (runLoop env args l acc).1.processed
  | [], _, _, _, hmem, _ => absurd hmem (List.not_mem_nil _)
  | (n', s') :: rest, acc, name, s, hmem, hsrc => by
    simp only [runLoop]
    rcases List.mem_cons.mp hmem with heq | hmem'
    · injection heq with hn hs
      subst hn
      subst hs
      by_cases hsel : selectedBy args name = true
      · by_cases hf : (updateStep env args name s).fatal = true
        · rw [if_pos hsel, if_pos hf]
          show (name, s) ∈
            (acc.processed ++ [(name, (updateStep env args name s).source)]) ++ rest
          rw [hsrc]
          exact List.mem_append_left _ (List.mem_append_right _ (by simp))
        · rw [if_pos hsel, if_neg hf]
          apply runLoop_processed_mono
          show (name, s) ∈ acc.processed ++ [(name, (updateStep env args name s).source)]
          rw [hsrc]
          simp
      · rw [if_neg hsel]
        apply runLoop_processed_mono
        show (name, s) ∈ acc.processed ++ [(name, s)]
        simp
    · by_cases hsel : selectedBy args n' = true
      · by_cases hf : (updateStep env args n' s').fatal = true
        · rw [if_pos hsel, if_pos hf]
          exact List.mem_append_right _ hmem'
        · rw [if_pos hsel, if_neg hf]
          exact runLoop_mem_preserved env args rest _ name s hmem' hsrc
      · rw [if_neg hsel]
        exact runLoop_mem_preserved env args rest _ name s hmem' hsrc

theorem update_written_precheck (env : UpdateEnv) (args : UpdateArgs)
    (sources : List (String × Source)) (hpre : precheckFails args = true) :
    (update env args sources).written = none := by
  unfold update
  rw [if_pos hpre]

theorem update_written_none_of_fatal (env : UpdateEnv) (args : UpdateArgs)
    (sources : List (String × Source))
    (hf : sources.any (fun p => selectedBy args p.1 && (updateStep env args p.1 p.2).fatal)
      = true) :
    (update env args sources).written = none := by
  unfold update
  by_cases hpre : precheckFails args = true
  · rw [if_pos hpre]
  · rw [if_neg hpre]
    have h2 : (runLoop env args sources ⟨[], [], false, 0, 0, 0, []⟩).2 = true := by
      rw [runLoop_fatal_eq]
      exact hf
    simp [h2]

theorem update_written_eq (env : UpdateEnv) (args : UpdateArgs)
    (sources : List (String × Source)) (hpre : precheckFails args = false)
    (hnf : sources.any (fun p => selectedBy args p.1 && (updateStep env args p.1 p.2).fatal)
      = false) :
    (update env args sources).written =
      (if sources.any
          (fun p => selectedBy args p.1 && (updateStep env args p.1 p.2).set_changed) = true
       then some (runLoop env args sources ⟨[], [], false, 0, 0, 0, []⟩).1.processed
       else none) := by
  unfold update
  rw [if_neg (by simp [hpre])]
  have h2 : (runLoop env args sources ⟨[], [], false, 0, 0, 0, []⟩).2 = false := by
    rw [runLoop_fatal_eq]
    exact hnf
  have hch := runLoop_changed_eq env args sources ⟨[], [], false, 0, 0, 0, []⟩ hnf
  simp [h2]
  rw [hch]
  simp only [Bool.false_or]

/-- C1: when candidate-version resolution for a selected source fails
with a recoverable error (`GetGitUrl`, or `FetchGitTags` with
`NoTagsFitFilter`), the source is counted skipped-with-error and the
loop simply continues with the remaining entries; for any other
resolver error the step is fatal: every run containing such a source
reports failure and writes nothing to the lockfile. -/
theorem claim1_resolver_error_policy
    (env : UpdateEnv) (args : UpdateArgs) (name : String) (s : Source)
    (e : GetLatestVersionError)
    (hpin : args.pin = false) (hunpin : args.unpin = false)
    (hreach : s.pinned = false ∨ args.force = true)
    (hsel : selectedBy args name = true)
    (herr : env.get_new_version s = .error e) :
    (resolverRecoverable e = true →
      updateStep env args name s =
        { StepRes.base s with skipped := 1, errors := 1, calls := [.resolve name] } ∧
      ∀ rest acc, runLoop env args ((name, s) :: rest) acc =
        runLoop env args rest (pushStep acc name (updateStep env args name s))) ∧
    (resolverRecoverable e = false →
      (updateStep env args name s).fatal = true ∧
      ∀ sources, (name, s) ∈ sources →
        (update env args sources).failure = true ∧
        (update env args sources).written = none) := by
  constructor
  · intro hrec
    have hstep' : updateStep env args name s =
        { StepRes.base s with skipped := 1, errors := 1, calls := [.resolve name] } := by
      unfold updateStep
      rw [if_neg (by simp [hpin]), if_neg (by simp [hunpin]),
        if_neg (by rcases hreach with h | h <;> simp [h])]
      cases e with
      | GetGitUrl x => simp only [herr]
      | FetchGitTags err tp =>
        cases err with
        | NoTagsFitFilter => simp only [herr]
        | CommandFailed => simp [resolverRecoverable] at hrec
        | CommandOutputInvalidUtf8 => simp [resolverRecoverable] at hrec
      | FetchBranchCommit err br => simp [resolverRecoverable] at hrec
    refine ⟨hstep', fun rest acc => ?_⟩
    simp only [runLoop]
    rw [if_pos hsel, if_neg (by rw [hstep']; simp [StepRes.base])]
  · intro hrec
    have hfatal : (updateStep env args name s).fatal = true := by
      unfold updateStep
      rw [if_neg (by simp [hpin]), if_neg (by simp [hunpin]),
        if_neg (by rcases hreach with h | h <;> simp [h])]
      cases e with
      | GetGitUrl x => simp [resolverRecoverable] at hrec
      | FetchGitTags err tp =>
        cases err with
        | NoTagsFitFilter => simp [resolverRecoverable] at hrec
        | CommandFailed => simp only [herr]
        | CommandOutputInvalidUtf8 => simp only [herr]
      | FetchBranchCommit err br => simp only [herr]
    refine ⟨hfatal, fun sources hmem => ?_⟩
    have hany : sources.any
        (fun p => selectedBy args p.1 && (updateStep env args p.1 p.2).fatal) = true :=
      List.any_eq_true.mpr ⟨(name, s), hmem, by simp [hsel, hfatal]⟩
    refine ⟨?_, update_written_none_of_fatal env args sources hany⟩
    unfold update
    by_cases hpre : precheckFails args = true
    · rw [if_pos hpre]
    · rw [if_neg hpre]
      have h2 : (runLoop env args sources ⟨[], [], false, 0, 0, 0, []⟩).2 = true := by
        rw [runLoop_fatal_eq]
        exact hany
      simp [h2]

/-- C2: in every reconciliation step, the only way a source's `version`
field can change is the branch that simultaneously stores the freshly
fetched hash (and the candidate into `latest_checked_version`); and on
a recoverable `PrefetchFailed` hash-fetch error the step leaves
`version` and `hash` untouched, advances `latest_checked_version` to
the candidate, and counts the source skipped-with-error. -/
theorem claim2_version_hash_atomic :
    (∀ (env : UpdateEnv) (args : UpdateArgs) (name : String) (s : Source),
      (updateStep env args name s).source.version ≠ s.version →
      ∃ v u h, env.get_new_version s = .ok v ∧ Source.full_url env s v = .ok u ∧
        env.get_artifact_hash u s.unpack = .ok h ∧
        (updateStep env args name s).source.version = v ∧
        (updateStep env args name s).source.hash = h ∧
        (updateStep env args name s).source.latest_checked_version = v) ∧
    (∀ (env : UpdateEnv) (args : UpdateArgs) (name : String) (s : Source) (v u pu : String),
      args.pin = false → args.unpin = false → (s.pinned = false ∨ args.force = true) →
      env.get_new_version s = .ok v →
      (s.update_scheme.is_static = true ∨ args.refetch = true ∨
        s.latest_checked_version ≠ v) →
      Source.full_url env s v = .ok u →
      env.get_artifact_hash u s.unpack = .error (.PrefetchFailed pu) →
      (updateStep env args name s).source = { s with latest_checked_version := v } ∧
      (updateStep env args name s).source.version = s.version ∧
      (updateStep env args name s).source.hash = s.hash ∧
      (updateStep env args name s).skipped = 1 ∧
      (updateStep env args name s).errors = 1 ∧
      (updateStep env args name s).set_changed = true) := by
  constructor
  · intro env args name s
    unfold updateStep
    repeat' split
    all_goals intro hne
    all_goals
      first
      | exact absurd rfl hne
      | exact ⟨_, _, _, by assumption, by assumption, by assumption, rfl, rfl, rfl⟩
  · intro env args name s v u pu hpin hunpin hreach hres hstale hurl hhash
    unfold updateStep
    rw [if_neg (by simp [hpin]), if_neg (by simp [hunpin]),
      if_neg (by rcases hreach with h | h <;> simp [h])]
    simp only [hres]
    rw [if_neg (fun hcond => by rcases hstale with h | h | h <;> simp_all)]
    simp only [hurl, hhash]
    refine ⟨?_, ?_, ?_, ?_, ?_, ?_⟩ <;> first | rfl | trivial

theorem claim1_resolver_error_policy_witness :
    (update c1Env plainArgs [("a", gitTagsSrc)]).failure = true ∧
    (update c1Env plainArgs [("a", gitTagsSrc)]).written = none := by
  have h := claim1_resolver_error_policy c1Env plainArgs "a" gitTagsSrc
    (.FetchBranchCommit .BranchNotFound "main") rfl rfl (Or.inl rfl) rfl rfl
  exact (h.2 rfl).2 [("a", gitTagsSrc)] (by simp)

theorem claim2_version_hash_atomic_witness :
    (updateStep c2Env plainArgs "a" gitTagsSrc).source =
      { gitTagsSrc with latest_checked_version := "2.0" } ∧
    (updateStep c2Env plainArgs "a" gitTagsSrc).source.version = gitTagsSrc.version ∧
    (updateStep c2Env plainArgs "a" gitTagsSrc).source.hash = gitTagsSrc.hash ∧
    (updateStep c2Env plainArgs "a" gitTagsSrc).skipped = 1 ∧
    (updateStep c2Env plainArgs "a" gitTagsSrc).errors = 1 ∧
    (updateStep c2Env plainArgs "a" gitTagsSrc).set_changed = true :=
  claim2_version_hash_atomic.2 c2Env plainArgs "a" gitTagsSrc "2.0"
    "https://x/2.0.tar.gz" "https://x/2.0.tar.gz" rfl rfl (Or.inl rfl) rfl
    (Or.inr (Or.inr (by decide))) (by decide) rfl

/-- C3 counterexample: a source whose URL template expands to an
unparsable URL does not abort the run.  With two sources, the first
having the broken template `"badurl"`, the run exits successfully, the
second source is still processed (its version advances to `"2.0"`), and
the lockfile is written. -/
theorem claim3_counterexample :
    (update c3Env plainArgs [("a", c3Bad), ("b", gitTagsSrc)]).failure = false ∧
    (update c3Env plainArgs [("a", c3Bad), ("b", gitTagsSrc)]).written =
      some [("a", c3Bad), ("b", c3GoodAfter)] ∧
    (update c3Env plainArgs [("a", c3Bad), ("b", gitTagsSrc)]).skipped = 1 ∧
    (update c3Env plainArgs [("a", c3Bad), ("b", gitTagsSrc)]).errors = 1 := by
  decide

/-- C3 amended: when expanding the artifact URL template for the
candidate fails to parse (`BuildFullUrlError`), the source is counted
skipped-with-error (after the resolve and URL-build calls) with no field
modified, and the loop continues with the remaining sources; the run is
not aborted. -/
theorem claim3_build_url_error_recoverable
    (env : UpdateEnv) (args : UpdateArgs) (name : String) (s : Source) (v : String)
    (hpin : args.pin = false) (hunpin : args.unpin = false)
    (hreach : s.pinned = false ∨ args.force = true)
    (hres : env.get_new_version s = .ok v)
    (hstale : s.update_scheme.is_static = true ∨ args.refetch = true ∨
      s.latest_checked_version ≠ v)
    (hurl : env.url_parse_ok (rustReplace s.artifact_url_template "{version}" v) = false) :
    updateStep env args name s =
      { StepRes.base s with
        skipped := 1
        errors := 1
        calls := [.resolve name, .buildUrl name] } ∧
    (updateStep env args name s).fatal = false ∧
    ∀ rest acc, selectedBy args name = true →
      runLoop env args ((name, s) :: rest) acc =
        runLoop env args rest (pushStep acc name (updateStep env args name s)) := by
  have hfu : Source.full_url env s v = .error ⟨rustReplace s.artifact_url_template "{version}" v⟩ := by
    unfold Source.full_url
    rw [if_neg (by simp [hurl])]
  have hstep : updateStep env args name s =
      { StepRes.base s with
        skipped := 1
        errors := 1
        calls := [.resolve name, .buildUrl name] } := by
    unfold updateStep
    rw [if_neg (by simp [hpin]), if_neg (by simp [hunpin]),
      if_neg (by rcases hreach with h | h <;> simp [h])]
    simp only [hres]
    rw [if_neg (fun hcond => by rcases hstale with h | h | h <;> simp_all)]
    simp only [hfu]
  refine ⟨hstep, by rw [hstep]; rfl, fun rest acc hsel => ?_⟩
  simp only [runLoop]
  rw [if_pos hsel, if_neg (by rw [hstep]; simp [StepRes.base])]

theorem claim3_build_url_error_recoverable_witness :
    updateStep c3Env plainArgs "a" c3Bad =
      { StepRes.base c3Bad with
        skipped := 1
        errors := 1
        calls := [.resolve "a", .buildUrl "a"] } :=
  (claim3_build_url_error_recoverable c3Env plainArgs "a" c3Bad "2.0" rfl rfl
    (Or.inl rfl) rfl (Or.inr (Or.inr (by decide))) (by decide)).1

/-- C7: for a non-Static source, when `refetch` is not set and the
stored `latest_checked_version` equals the resolved candidate, the step
counts the source up to date, performs only the resolve call (no URL
build and no hash fetch), and leaves every field of the source
unchanged. -/
theorem claim7_up_to_date_short_circuit
    (env : UpdateEnv) (args : UpdateArgs) (name : String) (s : Source) (v : String)
    (hpin : args.pin = false) (hunpin : args.unpin = false)
    (hreach : s.pinned = false ∨ args.force = true)
    (hstatic : s.update_scheme.is_static = false)
    (hrefetch : args.refetch = false)
    (hres : env.get_new_version s = .ok v)
    (hlcv : s.latest_checked_version = v) :
    updateStep env args name s =
      { StepRes.base s with up_to_date := 1, calls := [.resolve name] } := by
  unfold updateStep
  rw [if_neg (by simp [hpin]), if_neg (by simp [hunpin]),
    if_neg (by rcases hreach with h | h <;> simp [h])]
  simp only [hres]
  rw [if_pos ⟨hstatic, hrefetch, hlcv⟩]

theorem claim7_up_to_date_short_circuit_witness :
    updateStep c7Env plainArgs "a" { gitTagsSrc with latest_checked_version := "1.0" } =
      { StepRes.base { gitTagsSrc with latest_checked_version := "1.0" } with
        up_to_date := 1
        calls := [.resolve "a"] } :=
  claim7_up_to_date_short_circuit c7Env plainArgs "a"
    { gitTagsSrc with latest_checked_version := "1.0" } "1.0" rfl rfl (Or.inl rfl)
    rfl rfl rfl rfl

/-- C5 counterexample: a run in which no field of any source changes can
still rewrite the lockfile.  A single Static source whose prefetch
returns the hash already stored is counted up to date, every field keeps
its previous value, and yet the document is written (the written map is
field-for-field the input map). -/
theorem claim5_counterexample :
    (update c5Env plainArgs [("a", staticSrc)]).written = some [("a", staticSrc)] ∧
    (update c5Env plainArgs [("a", staticSrc)]).up_to_date = 1 ∧
    (update c5Env plainArgs [("a", staticSrc)]).updated = [] := by
  decide

/-- C5 amended: a reconciliation run persists the SourceMap iff the
pre-loop guard passes, no selected source hits a fatal step, and at
least one selected source reaches a step that raises the code's
`changed` flag (a pin/unpin toggle, a successful hash fetch — including
the up-to-date case — or a recoverable prefetch failure); this can hold
even when every field keeps its previous value, so an up-to-date source
can trigger a rewrite. -/
theorem claim5_amended_persistence_condition
    (env : UpdateEnv) (args : UpdateArgs) (sources : List (String × Source)) :
    (update env args sources).written ≠ none ↔
      (precheckFails args = false ∧
       (∀ p ∈ sources, selectedBy args p.1 = true →
         (updateStep env args p.1 p.2).fatal = false) ∧
       (∃ p ∈ sources, selectedBy args p.1 = true ∧
         (updateStep env args p.1 p.2).set_changed = true)) := by
  constructor
  · intro h
    have hpre : precheckFails args = false := by
      by_contra hp
      have hp' : precheckFails args = true := by
        revert hp
        cases precheckFails args <;> simp
      rw [update_written_precheck env args sources hp'] at h
      exact h rfl
    have hnf : sources.any
        (fun p => selectedBy args p.1 && (updateStep env args p.1 p.2).fatal) = false := by
      by_contra hf
      have hf' : sources.any
          (fun p => selectedBy args p.1 && (updateStep env args p.1 p.2).fatal) = true := by
        revert hf
        cases sources.any (fun p => selectedBy args p.1 && (updateStep env args p.1 p.2).fatal)
          <;> simp
      rw [update_written_none_of_fatal env args sources hf'] at h
      exact h rfl
    refine ⟨hpre, ?_, ?_⟩
    · intro p hp hps
      by_contra hfp
      have hfp' : (updateStep env args p.1 p.2).fatal = true := by
        revert hfp
        cases (updateStep env args p.1 p.2).fatal <;> simp
      have : sources.any
          (fun p => selectedBy args p.1 && (updateStep env args p.1 p.2).fatal) = true :=
        List.any_eq_true.mpr ⟨p, hp, by simp [hps, hfp']⟩
      rw [this] at hnf
      cases hnf
    · rw [update_written_eq env args sources hpre hnf] at h
      by_cases hc : sources.any
          (fun p => selectedBy args p.1 && (updateStep env args p.1 p.2).set_changed) = true
      · obtain ⟨p, hp, hpp⟩ := List.any_eq_true.mp hc
        rw [Bool.and_eq_true] at hpp
        exact ⟨p, hp, hpp.1, hpp.2⟩
      · rw [if_neg hc] at h
        exact absurd rfl h
  · rintro ⟨hpre, hnofatal, p, hp, hps, hch⟩
    have hnf : sources.any
        (fun p => selectedBy args p.1 && (updateStep env args p.1 p.2).fatal) = false := by
      cases hx : sources.any
          (fun p => selectedBy args p.1 && (updateStep env args p.1 p.2).fatal) with
      | false => rfl
      | true =>
        obtain ⟨q, hq, hqq⟩ := List.any_eq_true.mp hx
        rw [Bool.and_eq_true] at hqq
        have := hnofatal q hq hqq.1
        rw [this] at hqq
        exact absurd hqq.2 (by simp)
    have hc : sources.any
        (fun p => selectedBy args p.1 && (updateStep env args p.1 p.2).set_changed) = true :=
      List.any_eq_true.mpr ⟨p, hp, by simp [hps, hch]⟩
    rw [update_written_eq env args sources hpre hnf, if_pos hc]
    simp

/-- C6: a pinned source, in a plain update pass without `--force` (and
without the pin/unpin flags, which is the only mode in which sources are
counted "skipped"), is skipped: the step changes no field, performs no
resolve, URL-build or prefetch call, counts one skip, the entry survives
unchanged into the final (and any written) map, and — when source names
are unique — no collaborator call of the whole run is made on its
behalf. -/
theorem claim6_pin_invariant
    (env : UpdateEnv) (args : UpdateArgs) (name : String) (s : Source)
    (hpin : args.pin = false) (hunpin : args.unpin = false)
    (hforce : args.force = false) (hp : s.pinned = true) :
    updateStep env args name s = { StepRes.base s with skipped := 1 } ∧
    (∀ sources, (name, s) ∈ sources →
      (name, s) ∈ (update env args sources).final_sources ∧
      ∀ m, (update env args sources).written = some m → (name, s) ∈ m) ∧
    (∀ sources, (sources.map Prod.fst).Nodup → (name, s) ∈ sources →
      ∀ c ∈ (update env args sources).calls, ExtCall.srcName c ≠ name) := by
  have hstep : updateStep env args name s = { StepRes.base s with skipped := 1 } := by
    unfold updateStep
    rw [if_neg (by simp [hpin]), if_neg (by simp [hunpin]), if_pos ⟨hp, hforce⟩]
  have hsrc : (updateStep env args name s).source = s := by
    rw [hstep]
    rfl
  refine ⟨hstep, ?_, ?_⟩
  · intro sources hmem
    unfold update
    by_cases hpre : precheckFails args = true
    · rw [if_pos hpre]
      exact ⟨hmem, fun m hm => by simp at hm⟩
    · rw [if_neg hpre]
      have hmemp : (name, s) ∈
          (runLoop env args sources ⟨[], [], false, 0, 0, 0, []⟩).1.processed :=
        runLoop_mem_preserved env args sources _ name s hmem hsrc
      by_cases h2 : (runLoop env args sources ⟨[], [], false, 0, 0, 0, []⟩).2 = true
      · refine ⟨by simp [h2]; exact hmemp, fun m hm => ?_⟩
        simp [h2] at hm
      · have h2f : (runLoop env args sources ⟨[], [], false, 0, 0, 0, []⟩).2 = false := by
          revert h2
          cases (runLoop env args sources ⟨[], [], false, 0, 0, 0, []⟩).2 <;> simp
        refine ⟨by simp [h2f]; exact hmemp, fun m hm => ?_⟩
        simp [h2f] at hm
        rw [← hm.2]
        exact hmemp
  · intro sources hnd hmem c hc
    have hc' : c ∈ (runLoop env args sources ⟨[], [], false, 0, 0, 0, []⟩).1.calls := by
      unfold update at hc
      by_cases hpre : precheckFails args = true
      · rw [if_pos hpre] at hc
        simp at hc
      · rw [if_neg hpre] at hc
        by_cases h2 : (runLoop env args sources ⟨[], [], false, 0, 0, 0, []⟩).2 = true
        · simpa [h2] using hc
        · have h2f : (runLoop env args sources ⟨[], [], false, 0, 0, 0, []⟩).2 = false := by
            revert h2
            cases (runLoop env args sources ⟨[], [], false, 0, 0, 0, []⟩).2 <;> simp
          simpa [h2f] using hc
    rcases runLoop_calls_sub env args sources _ c hc' with h | ⟨p, hpmem, hpsel, hpc⟩
    · simp at h
    · obtain ⟨pn, ps⟩ := p
      have hsn : c.srcName = pn := updateStep_calls_srcName env args pn ps c hpc
      intro hceq
      have hpn : pn = name := hsn.symm.trans hceq
      subst hpn
      have hps : ps = s := nodupKeys_eq sources pn ps s hnd hpmem hmem
      subst hps
      rw [hstep] at hpc
      simp [StepRes.base] at hpc

theorem claim6_pin_invariant_witness :
    updateStep c1Env plainArgs "a" { gitTagsSrc with pinned := true } =
      { StepRes.base { gitTagsSrc with pinned := true } with skipped := 1 } ∧
    ("a", { gitTagsSrc with pinned := true }) ∈
      (update c1Env plainArgs [("a", { gitTagsSrc with pinned := true })]).final_sources := by
  have h := claim6_pin_invariant c1Env plainArgs "a" { gitTagsSrc with pinned := true }
    rfl rfl rfl rfl
  exact ⟨h.1, (h.2.1 [("a", { gitTagsSrc with pinned := true })] (by simp)).1⟩

/-- C8: serializing a SourceMap (whose keys satisfy the `BTreeMap`
sorted-keys invariant) to JSON and deserializing the result yields the
same map, name for name and field for field. -/
theorem claim8_roundtrip (m : List (String × Source)) (hs : sortedKeys m = true) :
    decodeSourceMap (encodeSourceMap m) = .ok m := by
  have h := decodeGo_encode m [] hs (fun p _ => rfl)
  simpa [decodeSourceMap, encodeSourceMap] using h

theorem claim8_roundtrip_witness :
    sortedKeys c8Map = true ∧
    decodeSourceMap (encodeSourceMap c8Map) = .ok c8Map :=
  ⟨by decide, claim8_roundtrip c8Map (by decide)⟩

/-- C9: resolving a candidate for a GitBranch source slices the fetched
commit hash without a bounds check: when the branch listing succeeds
with hash `h`, the resolution returns normally only if the configured
`short_hash_length` is at most the byte length of `h`, and for any
larger length it panics (modelled as `none`) instead of returning an
error. -/
theorem claim9_short_hash_slice_panics
    (env : GitEnv) (s : Source) (ru : Option String) (branch u h : String)
    (n : {k : Nat // 0 < k})
    (hurl : (match ru with
             | some x => Except.ok x
             | none => env.infer_url s.artifact_url_template) = Except.ok u)
    (hfetch : fetch_git_branch_commit env u branch = some (.ok h)) :
    ((∃ r, get_new_version_for env (.GitBranch ru branch n) s = some r) →
      n.val ≤ utf8Len h.toList) ∧
    (utf8Len h.toList < n.val →
      get_new_version_for env (.GitBranch ru branch n) s = none) := by
  have hred : get_new_version_for env (.GitBranch ru branch n) s =
      (match rustByteSliceTo h.toList n.val with
       | none => none
       | some short_hash => some (.ok (branch ++ "-" ++ String.mk short_hash))) := by
    unfold get_new_version_for
    simp only [hurl, hfetch]
  constructor
  · rintro ⟨r, hr⟩
    rw [hred] at hr
    by_contra hle
    have hlt : utf8Len h.toList < n.val := by omega
    rw [rustByteSliceTo_none_of_gt h.toList n.val hlt] at hr
    simp at hr
  · intro hlt
    rw [hred, rustByteSliceTo_none_of_gt h.toList n.val hlt]

theorem claim9_short_hash_slice_panics_witness :
    get_new_version_for c9Env (.GitBranch (some "u") "main" ⟨40, by decide⟩) staticSrc =
      none ∧
    get_new_version_for c9Env (.GitBranch (some "u") "main" ⟨6, by decide⟩) staticSrc =
      some (.ok "main-abcdef") := by
  have h := claim9_short_hash_slice_panics c9Env staticSrc (some "u") "main" "u"
    "abcdef0123" ⟨40, by decide⟩ rfl (by decide)
  exact ⟨h.2 (by decide), by decide⟩

/-- C10: the tag and branch fetchers never inspect the git subprocess's
exit status — their result depends only on the decoded standard output —
and when git exits unsuccessfully with empty standard output they report
`NoTagsFitFilter` / `BranchNotFound` instead of a command failure. -/
theorem claim10_exit_status_ignored :
    (∀ (env₁ env₂ : GitEnv) (url : String) (filter : Option String) (b₁ b₂ : Bool)
      (L : Option (List String)),
      env₁.ls_remote_tags url = .ok ⟨b₁, L⟩ → env₂.ls_remote_tags url = .ok ⟨b₂, L⟩ →
      fetch_latest_git_tag env₁ url filter = fetch_latest_git_tag env₂ url filter) ∧
    (∀ (env₁ env₂ : GitEnv) (url branch : String) (b₁ b₂ : Bool)
      (L : Option (List String)),
      env₁.ls_remote_branches url = .ok ⟨b₁, L⟩ →
      env₂.ls_remote_branches url = .ok ⟨b₂, L⟩ →
      fetch_git_branch_commit env₁ url branch = fetch_git_branch_commit env₂ url branch) ∧
    (∀ (env : GitEnv) (url : String) (filter : Option String),
      env.ls_remote_tags url = .ok ⟨false, some []⟩ →
      fetch_latest_git_tag env url filter = .error .NoTagsFitFilter) ∧
    (∀ (env : GitEnv) (url branch : String),
      env.ls_remote_branches url = .ok ⟨false, some []⟩ →
      fetch_git_branch_commit env url branch = some (.error .BranchNotFound)) := by
  refine ⟨?_, ?_, ?_, ?_⟩
  · intro env₁ env₂ url filter b₁ b₂ L h1 h2
    unfold fetch_latest_git_tag
    simp only [h1, h2]
  · intro env₁ env₂ url branch b₁ b₂ L h1 h2
    unfold fetch_git_branch_commit
    simp only [h1, h2]
  · intro env url filter hemp
    unfold fetch_latest_git_tag
    simp only [hemp]
    rfl
  · intro env url branch hemp
    unfold fetch_git_branch_commit
    simp only [hemp]
    rfl

theorem claim10_exit_status_ignored_witness :
    fetch_latest_git_tag c10Env "u" none = .error .NoTagsFitFilter ∧
    fetch_git_branch_commit c10Env "u" "main" = some (.error .BranchNotFound) :=
  ⟨claim10_exit_status_ignored.2.2.1 c10Env "u" none rfl,
   claim10_exit_status_ignored.2.2.2 c10Env "u" "main" rfl⟩

/-- C4 counterexample: the code's tag filter does not implement the
claimed rule for every input.  With the non-ASCII one-character filter
`"é"` (UTF-8 byte length 2) the code checks the character at index 2
instead of the character immediately after the filter, so the matching
tag `"é1"` is rejected and resolution fails, where the claimed rule
selects it and yields `"1"`; and a tag containing `"/"` is first cut to
its last `/`-segment, so with the empty filter `"a/1"` resolves to
`"1"` where the claimed rule rejects it (its first character is not a
digit). -/
theorem claim4_counterexample :
    (fetch_latest_git_tag_lines ["é1"] (some "é") = .error .NoTagsFitFilter ∧
     claimTagResolve ["é1"] "é" = .ok "1") ∧
    (fetch_latest_git_tag_lines ["a/1"] (some "") = .ok "1" ∧
     claimTagResolve ["a/1"] "" = .error .NoTagsFitFilter) := by
  decide

/-- C4 amended: for tag names containing no `/` and a tag-prefix filter
consisting of ASCII (single-byte) characters only, tag resolution
selects exactly the tags that start with the filter and whose character
immediately after it is an ASCII digit, returns the last such tag with
the filter stripped, and fails with `NoTagsFitFilter` when none
matches. -/
theorem claim4_tag_filter_ascii (tags : List String) (pre : String)
    (hascii : ∀ c ∈ pre.toList, Char.utf8Size c = 1)
    (hnoslash : ∀ t ∈ tags, '/' ∉ t.toList) :
    fetch_latest_git_tag_lines tags (some pre) = claimTagResolve tags pre := by
  have hlen : utf8Len pre.toList = pre.length := by
    rw [utf8Len_of_ascii pre.toList hascii]
    rfl
  have hmap : ∀ ts : List String, (∀ t ∈ ts, '/' ∉ t.toList) →
      ts.map lastSlashSegment = ts := by
    intro ts hts
    induction ts with
    | nil => rfl
    | cons a t ih =>
      simp only [List.map_cons]
      rw [lastSlashSegment_id a (hts a (by simp)), ih (fun x hx => hts x (by simp [hx]))]
  have hpred : tagFits pre =
      (fun t => strStartsWith pre t && (strCharNth t pre.length).any Char.isDigit) := by
    funext t
    unfold tagFits
    rw [hlen]
  unfold fetch_latest_git_tag_lines claimTagResolve
  dsimp only [Option.getD]
  rw [hmap tags hnoslash, hpred]
  cases hlast : (tags.filter
      (fun t => strStartsWith pre t && (strCharNth t pre.length).any Char.isDigit)).getLast? with
  | none => rfl
  | some tag =>
    have htag : tag ∈ tags.filter
        (fun t => strStartsWith pre t && (strCharNth t pre.length).any Char.isDigit) := by
      obtain ⟨hne, heq⟩ := List.mem_getLast?_eq_getLast (Option.mem_def.mpr hlast)
      rw [heq]
      exact List.getLast_mem hne
    have hsw : strStartsWith pre tag = true := by
      have hmemf := List.of_mem_filter htag
      simp only [Bool.and_eq_true] at hmemf
      exact hmemf.1
    dsimp only
    rw [if_pos hsw]

theorem claim4_tag_filter_ascii_witness :
    fetch_latest_git_tag_lines ["v1.0.0", "v1.2.0", "1.9.9", "v2.0.0-rc1"] (some "v") =
      claimTagResolve ["v1.0.0", "v1.2.0", "1.9.9", "v2.0.0-rc1"] "v" ∧
    fetch_latest_git_tag_lines ["v1.0.0", "v1.2.0", "1.9.9", "v2.0.0-rc1"] (some "v") =
      .ok "2.0.0-rc1" :=
  ⟨claim4_tag_filter_ascii _ _ (by decide) (by decide), by decide⟩
